import Mathlib

/-!
Verification development for a small Redis-like server (`redis-lite`).

The development shallowly embeds the two halves of the program that the
claims concern:

* `Codec` — the RESP wire codec of `src/resp.rs`, modelled at byte level.
  Bytes are `Nat` values (`0 ≤ b < 256` on every reachable input), a buffer
  is a `List Nat`, and the `std::io::Cursor` of the source is modelled by
  returning the unconsumed suffix of the buffer.  Rust `String` payloads are
  modelled as their UTF-8 byte lists; `String::from_utf8_lossy` is modelled
  explicitly so that the lossy behaviour of `read_line` / `parse_bulk_string`
  is visible.

* `Server` — the shared store of `src/db.rs` and the command layer of
  `src/commands.rs`.  Here string payloads are modelled as Lean `String`s
  (byte-level structure is irrelevant to these claims), the store is a
  function from keys to optional entries, and `std::time::Instant` is a
  `Nat` passed explicitly as `now`.
-/

namespace Codec

/-- The `RespValue` enum of `src/resp.rs`.  Rust `String` fields are
modelled as UTF-8 byte lists (`List Nat`). -/
inductive RespValue where
  | simpleString (s : List Nat)
  | simpleError (s : List Nat)
  | integer (i : Int)
  | bulkString (s : List Nat)
  | array (items : List RespValue)
  | null

/-- Result of a parsing function.  `ok v rest` is Rust `Ok(v)` with the
cursor advanced so that `rest` is the unconsumed suffix of the buffer;
`err m` is Rust `Err(m)`; `panic m` models a Rust runtime panic (the source
can panic on capacity overflow), which is not an `Err` value at all. -/
inductive ParseResult (α : Type) where
  | ok (val : α) (rest : List Nat)
  | err (msg : String)
  | panic (msg : String)

/-- UTF-8 encoding of U+FFFD, the replacement character. -/
def fffd : List Nat := [0xEF, 0xBF, 0xBD]

/-- A UTF-8 continuation byte (`0x80 ..= 0xBF`). -/
def isCont (b : Nat) : Bool := 0x80 ≤ b && b ≤ 0xBF

/-- For a leading byte of a multi-byte UTF-8 sequence: the allowed range
`(lo, hi)` of the first continuation byte and the number of further plain
continuation bytes.  `none` for bytes that can never start a sequence. -/
def contRange (b0 : Nat) : Option (Nat × Nat × Nat) :=
  if 0xC2 ≤ b0 && b0 ≤ 0xDF then some (0x80, 0xBF, 0)
  else if b0 = 0xE0 then some (0xA0, 0xBF, 1)
  else if (0xE1 ≤ b0 && b0 ≤ 0xEC) || b0 = 0xEE || b0 = 0xEF then some (0x80, 0xBF, 1)
  else if b0 = 0xED then some (0x80, 0x9F, 1)
  else if b0 = 0xF0 then some (0x90, 0xBF, 2)
  else if 0xF1 ≤ b0 && b0 ≤ 0xF3 then some (0x80, 0xBF, 2)
  else if b0 = 0xF4 then some (0x80, 0x8F, 2)
  else none

/-- Worker for `utf8Lossy`, structural in a fuel argument (any fuel at
least the length of the list gives the real result). -/
def utf8LossyAux : Nat → List Nat → List Nat
  | 0, _ => []
  | _ + 1, [] => []
  | fuel + 1, b0 :: rest =>
    if b0 < 0x80 then b0 :: utf8LossyAux fuel rest
    else
      match contRange b0 with
      | none => fffd ++ utf8LossyAux fuel rest
      | some (lo, hi, extra) =>
        match rest with
        | [] => fffd
        | b1 :: rest1 =>
          if lo ≤ b1 && b1 ≤ hi then
            match extra, rest1 with
            | 0, _ => b0 :: b1 :: utf8LossyAux fuel rest1
            | 1, [] => fffd
            | 1, b2 :: rest2 =>
              if isCont b2 then b0 :: b1 :: b2 :: utf8LossyAux fuel rest2
              else fffd ++ utf8LossyAux fuel rest1
            | _ + 2, [] => fffd
            | _ + 2, b2 :: rest2 =>
              if isCont b2 then
                match rest2 with
                | [] => fffd
                | b3 :: rest3 =>
                  if isCont b3 then b0 :: b1 :: b2 :: b3 :: utf8LossyAux fuel rest3
                  else fffd ++ utf8LossyAux fuel rest2
              else fffd ++ utf8LossyAux fuel rest1
          else fffd ++ utf8LossyAux fuel rest

/-- Model of Rust `String::from_utf8_lossy(bytes).to_string()`, returning
the UTF-8 bytes of the resulting string.  Maximal invalid subparts are
replaced by one U+FFFD each, per the WHATWG substitution rule that the Rust
standard library implements: when a multi-byte sequence is interrupted by a
byte outside the allowed range, the consumed prefix is replaced and decoding
resumes at the offending byte; a truncated sequence at the end of the input
is replaced by a single U+FFFD. -/
def utf8Lossy (l : List Nat) : List Nat := utf8LossyAux l.length l

/-- Index of the first `\r\n` pair in the buffer, if any (the scan
`for i in position..inner.len()-1` of `read_line` in `src/resp.rs`). -/
def findCRLF : List Nat → Option Nat
  | [] => none
  | [_] => none
  | b0 :: b1 :: rest =>
    if b0 = 13 ∧ b1 = 10 then some 0 else (findCRLF (b1 :: rest)).map (· + 1)

/-- `true` when the byte list contains no adjacent `\r\n` pair (so a
`read_line` scan runs past all of it). -/
def noCRLF : List Nat → Bool
  | [] => true
  | [_] => true
  | b0 :: b1 :: rest => !(b0 == 13 && b1 == 10) && noCRLF (b1 :: rest)

/-- `read_line` of `src/resp.rs`: from the cursor position (the head of
`input`), scan for the first CRLF; on success return the lossily decoded
content before it and consume through the CRLF; otherwise `Err("Incomplete")`
(also when the cursor is already at the end of the buffer). -/
def read_line (input : List Nat) : ParseResult (List Nat) :=
  if input = [] then .err ("Incomplete")
  else
    match findCRLF input with
    | some i => .ok (utf8Lossy (input.take i)) (input.drop (i + 2))
    | none => .err ("Incomplete")

/-- Accumulating decimal evaluation of a digit run, failing on any
non-digit byte (the core of Rust `str::parse`). -/
def digitsVal : List Nat → Nat → Option Nat
  | [], acc => some acc
  | b :: rest, acc =>
    if 48 ≤ b ∧ b ≤ 57 then digitsVal rest (acc * 10 + (b - 48)) else none

/-- Model of Rust `str::parse::<i64>()` applied to the bytes of the string:
an optional `+`/`-` sign (byte 43 / 45) followed by at least one ASCII
digit, rejecting any other byte and any value outside the `i64` range. -/
def parse_i64 (l : List Nat) : Option Int :=
  match l with
  | [] => none
  | b :: ds =>
    if b = 43 then
      if ds = [] then none
      else (digitsVal ds 0).bind fun n =>
        if n ≤ 2 ^ 63 - 1 then some (n : Int) else none
    else if b = 45 then
      if ds = [] then none
      else (digitsVal ds 0).bind fun n =>
        if n ≤ 2 ^ 63 then some (-(n : Int)) else none
    else
      (digitsVal (b :: ds) 0).bind fun n =>
        if n ≤ 2 ^ 63 - 1 then some (n : Int) else none

/-- Decimal digits of `n`, most significant first, as ASCII bytes.  The
first argument is recursion fuel; `natDigits` supplies enough. -/
def natDigitsAux : Nat → Nat → List Nat → List Nat
  | 0, _, acc => acc
  | fuel + 1, n, acc =>
    if n < 10 then (48 + n) :: acc
    else natDigitsAux fuel (n / 10) ((48 + n % 10) :: acc)

/-- ASCII decimal representation of a `Nat` (Rust `format!("{}", n)`). -/
def natDigits (n : Nat) : List Nat := natDigitsAux (n + 1) n []

/-- ASCII decimal representation of an `Int` (Rust `format!("{}", i)` for
`i64`): a `-` sign for negatives, then the digits of the magnitude. -/
def intToBytes (i : Int) : List Nat :=
  if i < 0 then 45 :: natDigits (-i).toNat else natDigits i.toNat

/-- Rust `i as usize` for `i : i64` on a 64-bit target: two's complement
reinterpretation. -/
def usizeOfI64 (i : Int) : Nat := (i % (2 : Int) ^ 64).toNat

/-- `isize::MAX` on a 64-bit target.  `vec![0u8; n]` and
`Vec::with_capacity(n)` panic with a capacity overflow when the requested
allocation exceeds this many bytes. -/
def maxIsize : Nat := 2 ^ 63 - 1

/-- Rust `Cursor::read_exact` into a buffer of length `n`: succeeds exactly
when `n` bytes remain, consuming them. -/
def readExact (n : Nat) (l : List Nat) : Option (List Nat × List Nat) :=
  if n ≤ l.length then some (l.take n, l.drop n) else none

/-- `parse_simple_string` of `src/resp.rs` (cursor already past `+`). -/
def parse_simple_string (input : List Nat) : ParseResult RespValue :=
  match read_line input with
  | .ok s rest => .ok (.simpleString s) rest
  | .err m => .err m
  | .panic m => .panic m

/-- `parse_error` of `src/resp.rs` (cursor already past `-`). -/
def parse_error (input : List Nat) : ParseResult RespValue :=
  match read_line input with
  | .ok s rest => .ok (.simpleError s) rest
  | .err m => .err m
  | .panic m => .panic m

/-- `parse_integer` of `src/resp.rs` (cursor already past `:`). -/
def parse_integer (input : List Nat) : ParseResult RespValue :=
  match read_line input with
  | .ok s rest =>
    (match parse_i64 s with
     | none => .err ("Invalid integer")
     | some i => .ok (.integer i) rest)
  | .err m => .err m
  | .panic m => .panic m

/-- `parse_bulk_string` of `src/resp.rs` (cursor already past `$`).  After
the `-1` check the source runs `let len = len as usize; let mut buf =
vec![0; len];`: the two's complement cast is `usizeOfI64`, and the byte
allocation panics with a capacity overflow when `len` exceeds `isize::MAX`
(so every negative length other than `-1` panics).  Allocator exhaustion for
feasible-but-huge sizes is not modelled. -/
def parse_bulk_string (input : List Nat) : ParseResult RespValue :=
  match read_line input with
  | .err m => .err m
  | .panic m => .panic m
  | .ok len_str rest =>
    match parse_i64 len_str with
    | none => .err ("Invalid bulk string length")
    | some len =>
      if len = -1 then .ok .null rest
      else
        let len' := usizeOfI64 len
        if maxIsize < len' then .panic ("capacity overflow")
        else
          match readExact len' rest with
          | none => .err ("Failed to read bulk string data")
          | some (buf, rest1) =>
            match readExact 2 rest1 with
            | none => .err ("Failed to read CRLF")
            | some (crlf2, rest2) =>
              if crlf2 = [13, 10] then .ok (.bulkString (utf8Lossy buf)) rest2
              else .err ("Invalid bulk string ending")

/-- The error message for an unknown type byte (`format!("Unknown RESP
type: {}", byte as char)`). -/
def unknownMsg (b : Nat) : String :=
  "Unknown RESP type: " ++ String.singleton (Char.ofNat b)

/-- Parser mode: `one` parses a single frame (`parse_resp`); `items k acc`
is the element loop of `parse_array` (`for _ in 0..array_len`) with `k`
iterations left and the already parsed items in `acc`, most recent first. -/
inductive PMode where
  | one
  | items (k : Nat) (acc : List RespValue)

/-- `parse_resp`/`parse_array` of `src/resp.rs` as one function, structural
in an explicit recursion-fuel argument (the source recurses without bound;
every theorem below supplies ample fuel, and `sizeOf` of the frame always
suffices).  In `.one` mode: read the type byte (`Err("EOF")` if the buffer
is exhausted) and dispatch on it.  The `*` arm inlines `parse_array`: read
a signed length line, return `Null` on `-1`, then model
`Vec::with_capacity(array_len as usize)` — with 32-byte `RespValue`
elements the allocation request is `32 * (array_len as usize)` bytes and
panics past `isize::MAX` (so every negative count other than `-1` panics) —
and run the element loop in `.items` mode. -/
def parseStep : Nat → PMode → List Nat → ParseResult RespValue
  | 0, _, _ => .panic ("recursion limit exceeded")
  | _ + 1, .items 0 acc, input => .ok (.array acc.reverse) input
  | fuel + 1, .items (k + 1) acc, input =>
    (match parseStep fuel .one input with
     | .ok v rest => parseStep fuel (.items k (v :: acc)) rest
     | .err m => .err m
     | .panic m => .panic m)
  | fuel + 1, .one, input =>
    match input with
    | [] => .err ("EOF")
    | b :: rest =>
      if b = 43 then parse_simple_string rest
      else if b = 45 then parse_error rest
      else if b = 58 then parse_integer rest
      else if b = 36 then parse_bulk_string rest
      else if b = 42 then
        match read_line rest with
        | .err m => .err m
        | .panic m => .panic m
        | .ok size r1 =>
          match parse_i64 size with
          | none => .err ("Invalid array length")
          | some n =>
            if n = -1 then .ok .null r1
            else if maxIsize < 32 * usizeOfI64 n then .panic ("capacity overflow")
            else parseStep fuel (.items n.toNat []) r1
      else .err (unknownMsg b)

/-- `parse_resp` of `src/resp.rs`: parse one frame from the head of the
buffer. -/
def parse_resp (fuel : Nat) (input : List Nat) : ParseResult RespValue :=
  parseStep fuel .one input

mutual
/-- `RespValue::serialize` of `src/resp.rs` (`serializeList` is the element
loop of the `Array` arm). -/
def RespValue.serialize : RespValue → List Nat
  | .simpleString s => 43 :: (s ++ [13, 10])
  | .simpleError s => 45 :: (s ++ [13, 10])
  | .integer i => 58 :: (intToBytes i ++ [13, 10])
  | .bulkString s => 36 :: (natDigits s.length ++ [13, 10] ++ s ++ [13, 10])
  | .null => [36, 45, 49, 13, 10]
  | .array xs => 42 :: (natDigits xs.length ++ [13, 10] ++ serializeList xs)
/-- The element loop in the `Array` arm of `RespValue::serialize`. -/
def serializeList : List RespValue → List Nat
  | [] => []
  | x :: xs => RespValue.serialize x ++ serializeList xs
end

/-- Outcomes of one parse attempt as the connection loop of `src/main.rs`
distinguishes them: `Ok` is a success, `Err("Incomplete")` and `Err("EOF")`
break out to read more bytes, any other `Err` is a protocol error that
closes the connection, and a panic is a crash of the connection task. -/
inductive Outcome where
  | success
  | incomplete
  | protocolError
  | crash

/-- The classification performed by the `match parse_resp(...)` in
`process_socket` (`src/main.rs`). -/
def classify : ParseResult RespValue → Outcome
  | .ok _ _ => .success
  | .err m => if m = "Incomplete" ∨ m = "EOF" then .incomplete else .protocolError
  | .panic _ => .crash

mutual
/-- Whether a codec frame denotes a value constructible as the Rust
`RespValue` type on a 64-bit target: every string payload is the byte list
of a valid-UTF-8 Rust `String` (characterised by lossy decoding being the
identity), every integer fits in `i64`, string lengths fit in `i64` (a Rust
allocation never exceeds `isize::MAX` bytes), and array lengths stay below
the `Vec::with_capacity` overflow bound for 32-byte elements. -/
def constructibleB : RespValue → Bool
  | .simpleString s => utf8Lossy s == s
  | .simpleError s => utf8Lossy s == s
  | .integer i => decide (-(2 ^ 63) ≤ i) && decide (i ≤ 2 ^ 63 - 1)
  | .bulkString s => (utf8Lossy s == s) && decide (s.length ≤ 2 ^ 63 - 1)
  | .null => true
  | .array xs => decide (32 * xs.length ≤ 2 ^ 63 - 1) && constructibleList xs
/-- `constructibleB` on every element of a list of frames. -/
def constructibleList : List RespValue → Bool
  | [] => true
  | x :: xs => constructibleB x && constructibleList xs
end

mutual
/-- Whether no line-terminated payload (`SimpleString`/`SimpleError`) of
the frame contains the CRLF byte pair, anywhere in the nesting. -/
def crlfFreeB : RespValue → Bool
  | .simpleString s => noCRLF s
  | .simpleError s => noCRLF s
  | .array xs => crlfFreeList xs
  | .integer _ => true
  | .bulkString _ => true
  | .null => true
/-- `crlfFreeB` on every element of a list of frames. -/
def crlfFreeList : List RespValue → Bool
  | [] => true
  | x :: xs => crlfFreeB x && crlfFreeList xs
end

end Codec

namespace Server

/-- The `DataType` enum of `src/db.rs`.  The `HashSet` and `HashMap`
carriers of the unused `Set` and `Hash` variants are modelled as lists;
no command constructs or inspects them. -/
inductive DataType where
  | string (s : String)
  | list (l : List String)
  | set (elems : List String)
  | hash (pairs : List (String × String))

/-- The `kv: HashMap<String, (DataType, Option<Instant>)>` of `DbState` in
`src/db.rs`, modelled extensionally; `Instant` is a `Nat`. -/
def DbState := String → Option (DataType × Option Nat)

/-- `HashMap::insert`/`entry` writing: the map with `key` bound to `e`. -/
def update (kv : DbState) (key : String) (e : Option (DataType × Option Nat)) : DbState :=
  fun k => if k = key then e else kv k

/-- The empty store (`Db::new`). -/
def emptyDb : DbState := fun _ => none

/-- `Db::get` of `src/db.rs`.  The source first removes the entry when it
carries a deadline and `Instant::now() > expiry` (note: strictly greater),
then looks the key up again and clones the value; `now` stands for the
`Instant::now()` call.  Returns the result together with the updated
store. -/
def Db.get (kv : DbState) (now : Nat) (key : String) : Option DataType × DbState :=
  let kv1 :=
    match kv key with
    | some (_, some expiry) => if now > expiry then update kv key none else kv
    | _ => kv
  ((kv1 key).map Prod.fst, kv1)

/-- `Db::set` of `src/db.rs`: unconditionally insert a `String` entry with
the given deadline. -/
def Db.set (kv : DbState) (key value : String) (expiry : Option Nat) : DbState :=
  update kv key (some (.string value, expiry))

/-- `Db::rpush` of `src/db.rs`: `entry(key).or_insert((List(vec![]),
None))`, then append the values if the entry is a list and return the new
length, else return 0 leaving the entry as it is.  No deadline is ever
consulted or modified. -/
def Db.rpush (kv : DbState) (key : String) (values : List String) : Nat × DbState :=
  match kv key with
  | none =>
    let l' := ([] : List String) ++ values
    (l'.length, update kv key (some (.list l', none)))
  | some (.list l, d) =>
    let l' := l ++ values
    (l'.length, update kv key (some (.list l', d)))
  | some _ => (0, kv)

/-- `Db::lrange` of `src/db.rs`, including its boundary test
`start_idx >= end_idx || start_idx >= len` (note: `>=`, not `>`); the final
slice is Rust `list[start_idx as usize..=end_idx as usize]`.  No deadline is
consulted (`_expiry` is ignored by the source). -/
def Db.lrange (kv : DbState) (key : String) (start e : Int) : Except Unit (List String) :=
  match kv key with
  | some (.list l, _) =>
    let len : Int := l.length
    if len = 0 then .ok []
    else
      let start_idx := if start < 0 then len + start else start
      let end_idx := if e < 0 then len + e else e
      let start_idx := if start_idx < 0 then 0 else start_idx
      let end_idx := if end_idx ≥ len then len - 1 else end_idx
      if start_idx ≥ end_idx ∨ start_idx ≥ len then .ok []
      else .ok ((l.drop start_idx.toNat).take (end_idx.toNat - start_idx.toNat + 1))
  | some _ => .error ()
  | none => .ok []

/-- Whether an entry's optional deadline has been reached at `now`, in the
sense of the spec (§8: a key is expired at all times ≥ its TTL from the set
instant). -/
def expiredSpec (now : Nat) (d : Option Nat) : Bool :=
  match d with
  | some e => now ≥ e
  | none => false

/-- Modelled from the spec: `Db::lpush` is called by the `LPush` arm of
`Command::execute` in `src/commands.rs` but its definition is missing from
`src/db.rs`.  Spec §4.B: as `rpush` but the values are prepended in order —
each value is inserted at the head in turn; if the key is absent create a
`List` entry with no deadline; if it holds a non-list, return a type error
(encoded as 0 by the caller, like `rpush`) and do not modify the entry.
Per the spec's §3 invariant an expired entry is indistinguishable from an
absent one, so a passed deadline is treated as absence. -/
def Db.lpush (kv : DbState) (now : Nat) (key : String) (values : List String) : Nat × DbState :=
  let cur :=
    match kv key with
    | some (v, d) => if expiredSpec now d then none else some (v, d)
    | none => none
  match cur with
  | none =>
    let l' := values.foldl (fun acc v => v :: acc) ([] : List String)
    (l'.length, update kv key (some (.list l', none)))
  | some (.list l, d) =>
    let l' := values.foldl (fun acc v => v :: acc) l
    (l'.length, update kv key (some (.list l', d)))
  | some _ => (0, kv)

/-- Modelled from the spec: `Db::llen` is called by the `LLen` arm of
`Command::execute` in `src/commands.rs` but its definition is missing from
`src/db.rs`.  Spec §4.B: absent yields 0, a list yields its length, any
other value yields a type error; an expired entry counts as absent and is
deleted by the observing read (spec §4.B, Expiration). -/
def Db.llen (kv : DbState) (now : Nat) (key : String) : Except Unit Nat × DbState :=
  match kv key with
  | none => (.ok 0, kv)
  | some (v, d) =>
    if expiredSpec now d then (.ok 0, update kv key none)
    else
      match v with
      | .list l => (.ok l.length, kv)
      | _ => (.error (), kv)

/-- The `RespValue` enum of `src/resp.rs` as the command layer of
`src/commands.rs` consumes and produces it.  At this layer the byte-level
structure of payloads is irrelevant, so Rust `String` fields are modelled
as Lean `String`s (unlike the byte-list model of the `Codec` namespace). -/
inductive RespValue where
  | simpleString (s : String)
  | simpleError (s : String)
  | integer (i : Int)
  | bulkString (s : String)
  | array (items : List RespValue)
  | null

/-- The `Command` enum of `src/commands.rs`; `Duration` is a `Nat` of
milliseconds-equivalent ticks. -/
inductive Command where
  | ping
  | echo (msg : String)
  | set (key value : String) (ttl : Option Nat)
  | get (key : String)
  | rpush (key : String) (values : List String)
  | lpush (key : String) (values : List String)
  | lrange (key : String) (start e : Int)
  | llen (key : String)

/-- `WRONG_TYPE_ERR` of `src/commands.rs`. -/
def WRONG_TYPE_ERR : String :=
  "WRONGTYPE Operation against a key holding the wrong kind of value"

/-- `handle_push` of `src/commands.rs`: a length of 0 signals the
wrong-type condition. -/
def handle_push (len : Nat) : RespValue :=
  if len = 0 then .simpleError WRONG_TYPE_ERR else .integer (len : Int)

/-- `Command::execute` of `src/commands.rs`.  The store handle is threaded
explicitly, and `now` stands for the `Instant::now()` reads performed
during execution (in the `Set` arm and inside `Db::get`). -/
def Command.execute (c : Command) (now : Nat) (kv : DbState) : RespValue × DbState :=
  match c with
  | .ping => (.simpleString "PONG", kv)
  | .echo msg => (.bulkString msg, kv)
  | .set key value duration =>
    let expiry := duration.map (fun d => now + d)
    (.simpleString "OK", Db.set kv key value expiry)
  | .get key =>
    let r := Db.get kv now key
    (match r.1 with
     | some (.string s) => .bulkString s
     | none => .null
     | some _ => .simpleError WRONG_TYPE_ERR, r.2)
  | .rpush key values =>
    let r := Db.rpush kv key values
    (handle_push r.1, r.2)
  | .lpush key values =>
    let r := Db.lpush kv now key values
    (handle_push r.1, r.2)
  | .lrange key start e =>
    (match Db.lrange kv key start e with
     | .ok items => .array (items.map .bulkString)
     | .error _ => .simpleError WRONG_TYPE_ERR, kv)
  | .llen key =>
    let r := Db.llen kv now key
    (match r.1 with
     | .ok len => .integer (len : Int)
     | .error _ => .simpleError WRONG_TYPE_ERR, r.2)

/-- Modelled from the spec: the LRANGE index semantics of §4.B, used to
compare the source's `Db::lrange` against the specified behaviour.  Negative
indices are resolved as `L + i`; a still-negative start is clamped to 0 and
an end ≥ L to L − 1; the result is empty exactly when L = 0, or start > end
after resolution, or start ≥ L; otherwise it is the inclusive slice
`[start ..= end]`. -/
def specLrange (l : List String) (start e : Int) : List String :=
  let len : Int := l.length
  let s := if start < 0 then len + start else start
  let en := if e < 0 then len + e else e
  let s := if s < 0 then 0 else s
  let en := if en ≥ len then len - 1 else en
  if len = 0 ∨ s > en ∨ s ≥ len then []
  else (l.drop s.toNat).take (en.toNat - s.toNat + 1)

end Server

namespace Codec

theorem utf8LossyAux_ascii :
    ∀ (fuel : Nat) (l : List Nat), l.length ≤ fuel → (∀ b ∈ l, b < 128) →
      utf8LossyAux fuel l = l := by
  intro fuel
  induction fuel with
  | zero =>
    intro l hl _
    have : l = [] := List.length_eq_zero.mp (Nat.le_zero.mp hl)
    simp [this, utf8LossyAux]
  | succ n ih =>
    intro l hl hb
    cases l with
    | nil => simp [utf8LossyAux]
    | cons b0 rest =>
      have hb0 : b0 < 128 := hb b0 (by simp)
      have : utf8LossyAux (n + 1) (b0 :: rest) = b0 :: utf8LossyAux n rest := by
        simp [utf8LossyAux, hb0]
      have hrest : rest.length ≤ n := by simp at hl; omega
      rw [this, ih rest hrest (fun b h => hb b (by simp [h]))]

theorem utf8Lossy_ascii (l : List Nat) (h : ∀ b ∈ l, b < 128) : utf8Lossy l = l :=
  utf8LossyAux_ascii l.length l le_rfl h

theorem findCRLF_append_crlf :
    ∀ (l t : List Nat), noCRLF l = true → findCRLF (l ++ 13 :: 10 :: t) = some l.length := by
  intro l
  induction l with
  | nil => intro t _; simp [findCRLF]
  | cons a l ih =>
    intro t h
    cases l with
    | nil =>
      simp only [List.cons_append, List.nil_append, findCRLF]
      have : ¬(a = 13 ∧ (13 : Nat) = 10) := by omega
      simp [this, findCRLF]
    | cons b l' =>
      have h1 : ¬(a = 13 ∧ b = 10) := by
        simp only [noCRLF, Bool.and_eq_true, Bool.not_eq_true', Bool.and_eq_false_iff,
          beq_eq_false_iff_ne] at h
        rcases h.1 with h' | h' <;> omega
      have h2 : noCRLF (b :: l') = true := by
        simp only [noCRLF, Bool.and_eq_true] at h
        exact h.2
      simp only [List.cons_append, List.append_eq, findCRLF, h1, if_false]
      have hih := ih t h2
      simp only [List.cons_append, List.append_eq] at hih
      rw [hih]
      simp

theorem read_line_append (l t : List Nat) (h : noCRLF l = true) :
    read_line (l ++ 13 :: 10 :: t) = .ok (utf8Lossy l) t := by
  have hne : l ++ 13 :: 10 :: t ≠ [] := by simp
  have htake : (l ++ 13 :: 10 :: t).take l.length = l := List.take_left l _
  have hdrop : (l ++ 13 :: 10 :: t).drop (l.length + 2) = t := by
    have h1 : (l ++ 13 :: 10 :: t).drop l.length = 13 :: 10 :: t := List.drop_left l _
    have h2 := (List.drop_drop 2 l.length (l ++ 13 :: 10 :: t)).symm
    rw [h1] at h2
    exact h2
  simp only [read_line, if_neg hne, findCRLF_append_crlf l t h]
  rw [htake, hdrop]

theorem digitsVal_append :
    ∀ (l1 l2 : List Nat) (a : Nat),
      digitsVal (l1 ++ l2) a = (digitsVal l1 a).bind fun v => digitsVal l2 v := by
  intro l1
  induction l1 with
  | nil => intro l2 a; simp [digitsVal]
  | cons b l ih =>
    intro l2 a
    by_cases hb : 48 ≤ b ∧ b ≤ 57
    · simp [digitsVal, hb, ih]
    · simp [digitsVal, hb]

end Codec

namespace Codec

theorem natDigitsAux_append :
    ∀ (fuel n : Nat) (acc : List Nat),
      natDigitsAux fuel n acc = natDigitsAux fuel n [] ++ acc := by
  intro fuel
  induction fuel with
  | zero => intro n acc; simp [natDigitsAux]
  | succ f ih =>
    intro n acc
    by_cases h : n < 10
    · simp [natDigitsAux, h]
    · simp only [natDigitsAux, h, if_false]
      rw [ih (n / 10) ((48 + n % 10) :: acc), ih (n / 10) [48 + n % 10]]
      simp

theorem natDigitsAux_fuel :
    ∀ (n f1 f2 : Nat), n < f1 → n < f2 →
      natDigitsAux f1 n [] = natDigitsAux f2 n [] := by
  intro n
  induction n using Nat.strong_induction_on with
  | _ n ih =>
    intro f1 f2 h1 h2
    match f1, f2 with
    | g1 + 1, g2 + 1 =>
      by_cases h : n < 10
      · simp [natDigitsAux, h]
      · simp only [natDigitsAux, h, if_false]
        rw [natDigitsAux_append g1, natDigitsAux_append g2]
        have hlt : n / 10 < n := Nat.div_lt_self (by omega) (by omega)
        rw [ih (n / 10) hlt g1 g2 (by omega) (by omega)]

theorem natDigits_small (n : Nat) (h : n < 10) : natDigits n = [48 + n] := by
  simp [natDigits, natDigitsAux, h]

theorem natDigits_decomp (n : Nat) (h : ¬n < 10) :
    natDigits n = natDigits (n / 10) ++ [48 + n % 10] := by
  have hlt : n / 10 < n := Nat.div_lt_self (by omega) (by omega)
  show natDigitsAux (n + 1) n [] = _
  simp only [natDigitsAux, h, if_false]
  rw [natDigitsAux_append n, natDigitsAux_fuel (n / 10) n (n / 10 + 1) (by omega) (by omega)]
  rfl

theorem natDigits_mem_digits :
    ∀ (n : Nat), ∀ b ∈ natDigits n, 48 ≤ b ∧ b ≤ 57 := by
  intro n
  induction n using Nat.strong_induction_on with
  | _ n ih =>
    by_cases h : n < 10
    · rw [natDigits_small n h]
      intro b hb
      simp at hb
      omega
    · rw [natDigits_decomp n h]
      intro b hb
      rcases List.mem_append.mp hb with h' | h'
      · exact ih (n / 10) (Nat.div_lt_self (by omega) (by omega)) b h'
      · simp at h'
        have := Nat.mod_lt n (show 0 < 10 by omega)
        omega

theorem natDigits_ne_nil (n : Nat) : natDigits n ≠ [] := by
  by_cases h : n < 10
  · rw [natDigits_small n h]; simp
  · rw [natDigits_decomp n h]; simp

theorem digitsVal_natDigits :
    ∀ (n a : Nat), digitsVal (natDigits n) a = some (a * 10 ^ (natDigits n).length + n) := by
  intro n
  induction n using Nat.strong_induction_on with
  | _ n ih =>
    intro a
    by_cases h : n < 10
    · rw [natDigits_small n h]
      simp [digitsVal]
      omega
    · rw [natDigits_decomp n h, digitsVal_append]
      have hlt : n / 10 < n := Nat.div_lt_self (by omega) (by omega)
      rw [ih (n / 10) hlt a]
      have hd : 48 ≤ 48 + n % 10 ∧ 48 + n % 10 ≤ 57 := by
        have := Nat.mod_lt n (show 0 < 10 by omega)
        omega
      simp only [Option.some_bind, digitsVal, hd, and_self, if_true]
      have hlen : (natDigits (n / 10) ++ [48 + n % 10]).length
          = (natDigits (n / 10)).length + 1 := by simp
      rw [hlen, pow_succ]
      congr 1
      have h48 : 48 + n % 10 - 48 = n % 10 := by omega
      rw [h48]
      have hdm : 10 * (n / 10) + n % 10 = n := Nat.div_add_mod n 10
      calc (a * 10 ^ (natDigits (n / 10)).length + n / 10) * 10 + n % 10
          = a * (10 ^ (natDigits (n / 10)).length * 10) + (10 * (n / 10) + n % 10) := by ring
        _ = a * (10 ^ (natDigits (n / 10)).length * 10) + n := by rw [hdm]

theorem digitsVal_natDigits_zero (n : Nat) : digitsVal (natDigits n) 0 = some n := by
  rw [digitsVal_natDigits n 0]
  simp

end Codec

namespace Codec

theorem noCRLF_of_ne13 : ∀ (l : List Nat), (∀ b ∈ l, b ≠ 13) → noCRLF l = true := by
  intro l
  induction l with
  | nil => intro _; rfl
  | cons a l ih =>
    intro h
    cases l with
    | nil => rfl
    | cons b l' =>
      have ha : a ≠ 13 := h a (by simp)
      have : noCRLF (b :: l') = true := ih (fun x hx => h x (by simp [hx]))
      simp [noCRLF, this, ha]

theorem natDigits_ne13 (n : Nat) : ∀ b ∈ natDigits n, b ≠ 13 := by
  intro b hb
  have := natDigits_mem_digits n b hb
  omega

theorem noCRLF_natDigits (n : Nat) : noCRLF (natDigits n) = true :=
  noCRLF_of_ne13 _ (natDigits_ne13 n)

theorem noCRLF_intToBytes (i : Int) : noCRLF (intToBytes i) = true := by
  apply noCRLF_of_ne13
  intro b hb
  rw [intToBytes] at hb
  by_cases h : i < 0
  · rw [if_pos h] at hb
    rcases List.mem_cons.mp hb with h' | h'
    · omega
    · exact natDigits_ne13 _ b h'
  · rw [if_neg h] at hb
    exact natDigits_ne13 _ b hb

theorem utf8Lossy_natDigits (n : Nat) : utf8Lossy (natDigits n) = natDigits n := by
  apply utf8Lossy_ascii
  intro b hb
  have := natDigits_mem_digits n b hb
  omega

theorem utf8Lossy_intToBytes (i : Int) : utf8Lossy (intToBytes i) = intToBytes i := by
  apply utf8Lossy_ascii
  intro b hb
  rw [intToBytes] at hb
  by_cases h : i < 0
  · rw [if_pos h] at hb
    rcases List.mem_cons.mp hb with h' | h'
    · omega
    · have := natDigits_mem_digits _ b h'
      omega
  · rw [if_neg h] at hb
    have := natDigits_mem_digits _ b hb
    omega

theorem parse_i64_natDigits (n : Nat) (h : n ≤ 2 ^ 63 - 1) :
    parse_i64 (natDigits n) = some (n : Int) := by
  obtain ⟨b, ds, hbd⟩ : ∃ b ds, natDigits n = b :: ds := by
    cases hnd : natDigits n with
    | nil => exact absurd hnd (natDigits_ne_nil n)
    | cons b ds => exact ⟨b, ds, rfl⟩
  have hdig : 48 ≤ b ∧ b ≤ 57 := natDigits_mem_digits n b (by rw [hbd]; simp)
  have hb43 : b ≠ 43 := by omega
  have hb45 : b ≠ 45 := by omega
  rw [hbd, parse_i64]
  simp only [hb43, hb45, if_false]
  rw [← hbd, digitsVal_natDigits_zero n]
  simp only [Option.some_bind]
  rw [if_pos h]

theorem parse_i64_intToBytes (i : Int) (hlo : -(2 ^ 63) ≤ i) (hhi : i ≤ 2 ^ 63 - 1) :
    parse_i64 (intToBytes i) = some i := by
  by_cases h : i < 0
  · rw [intToBytes, if_pos h, parse_i64]
    have h43 : ¬((45 : Nat) = 43) := by omega
    rw [if_neg h43, if_pos rfl, if_neg (natDigits_ne_nil (-i).toNat)]
    rw [digitsVal_natDigits_zero]
    simp only [Option.some_bind]
    rw [if_pos (show (-i).toNat ≤ 2 ^ 63 by omega)]
    congr 1
    omega
  · rw [intToBytes, if_neg h]
    rw [parse_i64_natDigits i.toNat (by omega)]
    congr 1
    omega

theorem usizeOfI64_ofNat (n : Nat) (h : n < 2 ^ 64) : usizeOfI64 (n : Int) = n := by
  rw [usizeOfI64, Int.emod_eq_of_lt (by omega) (by push_cast; omega)]
  omega

theorem readExact_append (l t : List Nat) : readExact l.length (l ++ t) = some (l, t) := by
  rw [readExact, if_pos (by simp)]
  rw [List.take_left, List.drop_left]

theorem readExact_two (t : List Nat) : readExact 2 (13 :: 10 :: t) = some ([13, 10], t) := by
  rw [readExact, if_pos (by simp)]
  rfl

end Codec

namespace Codec

theorem parseStep_plus (fuel : Nat) (t : List Nat) :
    parseStep (fuel + 1) .one (43 :: t) = parse_simple_string t := rfl

theorem parseStep_minus (fuel : Nat) (t : List Nat) :
    parseStep (fuel + 1) .one (45 :: t) = parse_error t := rfl

theorem parseStep_colon (fuel : Nat) (t : List Nat) :
    parseStep (fuel + 1) .one (58 :: t) = parse_integer t := rfl

theorem parseStep_dollar (fuel : Nat) (t : List Nat) :
    parseStep (fuel + 1) .one (36 :: t) = parse_bulk_string t := rfl

theorem parseStep_star (fuel : Nat) (t : List Nat) :
    parseStep (fuel + 1) .one (42 :: t)
      = (match read_line t with
         | .err m => .err m
         | .panic m => .panic m
         | .ok size r1 =>
           match parse_i64 size with
           | none => .err ("Invalid array length")
           | some n =>
             if n = -1 then .ok .null r1
             else if maxIsize < 32 * usizeOfI64 n then .panic ("capacity overflow")
             else parseStep fuel (.items n.toNat []) r1) := rfl

theorem parseStep_items_zero (fuel : Nat) (acc : List RespValue) (input : List Nat) :
    parseStep (fuel + 1) (.items 0 acc) input = .ok (.array acc.reverse) input := rfl

theorem parseStep_items_succ (fuel k : Nat) (acc : List RespValue) (input : List Nat) :
    parseStep (fuel + 1) (.items (k + 1) acc) input
      = (match parseStep fuel .one input with
         | .ok v rest => parseStep fuel (.items k (v :: acc)) rest
         | .err m => .err m
         | .panic m => .panic m) := rfl

theorem parse_simple_string_wire (s rest : List Nat) (hcrlf : noCRLF s = true)
    (hu : utf8Lossy s = s) :
    parse_simple_string (s ++ 13 :: 10 :: rest) = .ok (.simpleString s) rest := by
  rw [parse_simple_string, read_line_append s rest hcrlf]
  dsimp only
  rw [hu]

theorem parse_error_wire (s rest : List Nat) (hcrlf : noCRLF s = true)
    (hu : utf8Lossy s = s) :
    parse_error (s ++ 13 :: 10 :: rest) = .ok (.simpleError s) rest := by
  rw [parse_error, read_line_append s rest hcrlf]
  dsimp only
  rw [hu]

theorem parse_integer_wire (i : Int) (rest : List Nat) (hlo : -(2 ^ 63) ≤ i)
    (hhi : i ≤ 2 ^ 63 - 1) :
    parse_integer (intToBytes i ++ 13 :: 10 :: rest) = .ok (.integer i) rest := by
  rw [parse_integer, read_line_append _ rest (noCRLF_intToBytes i)]
  dsimp only
  rw [utf8Lossy_intToBytes, parse_i64_intToBytes i hlo hhi]

theorem parse_bulk_string_wire (s rest : List Nat) (hu : utf8Lossy s = s)
    (h2 : s.length ≤ 2 ^ 63 - 1) :
    parse_bulk_string (natDigits s.length ++ 13 :: 10 :: (s ++ 13 :: 10 :: rest))
      = .ok (.bulkString s) rest := by
  rw [parse_bulk_string, read_line_append _ _ (noCRLF_natDigits s.length)]
  dsimp only
  rw [utf8Lossy_natDigits, parse_i64_natDigits s.length h2]
  dsimp only
  rw [if_neg (show ¬((s.length : Int) = -1) by omega)]
  rw [usizeOfI64_ofNat s.length (by omega)]
  rw [if_neg (show ¬(maxIsize < s.length) by simp only [maxIsize]; omega)]
  rw [readExact_append s (13 :: 10 :: rest)]
  dsimp only
  rw [readExact_two rest]
  dsimp only
  rw [if_pos rfl, hu]

theorem parse_serializeAux :
    ∀ N : Nat,
      (∀ f : RespValue, sizeOf f ≤ N → constructibleB f = true → crlfFreeB f = true →
        ∀ (fuel : Nat) (rest : List Nat), sizeOf f ≤ fuel →
          parseStep fuel .one (RespValue.serialize f ++ rest) = .ok f rest)
      ∧
      (∀ xs : List RespValue, sizeOf xs ≤ N → constructibleList xs = true →
        crlfFreeList xs = true →
        ∀ (fuel : Nat) (acc : List RespValue) (rest : List Nat), sizeOf xs ≤ fuel →
          parseStep fuel (.items xs.length acc) (serializeList xs ++ rest)
            = .ok (.array (acc.reverse ++ xs)) rest) := by
  intro N
  induction N using Nat.strong_induction_on with
  | _ N ih =>
    constructor
    · intro f hN hc hcr fuel rest hfuel
      cases f with
      | simpleString s =>
        obtain ⟨f1, rfl⟩ : ∃ f1, fuel = f1 + 1 :=
          ⟨fuel - 1, by simp at hfuel; omega⟩
        have hu : utf8Lossy s = s := by simpa [constructibleB] using hc
        have hcrlf : noCRLF s = true := by simpa [crlfFreeB] using hcr
        have harr : RespValue.serialize (.simpleString s) ++ rest
            = 43 :: (s ++ 13 :: 10 :: rest) := by
          simp [RespValue.serialize]
        rw [harr, parseStep_plus, parse_simple_string_wire s rest hcrlf hu]
      | simpleError s =>
        obtain ⟨f1, rfl⟩ : ∃ f1, fuel = f1 + 1 :=
          ⟨fuel - 1, by simp at hfuel; omega⟩
        have hu : utf8Lossy s = s := by simpa [constructibleB] using hc
        have hcrlf : noCRLF s = true := by simpa [crlfFreeB] using hcr
        have harr : RespValue.serialize (.simpleError s) ++ rest
            = 45 :: (s ++ 13 :: 10 :: rest) := by
          simp [RespValue.serialize]
        rw [harr, parseStep_minus, parse_error_wire s rest hcrlf hu]
      | integer i =>
        obtain ⟨f1, rfl⟩ : ∃ f1, fuel = f1 + 1 :=
          ⟨fuel - 1, by simp at hfuel; omega⟩
        have hbounds : -(2 ^ 63) ≤ i ∧ i ≤ 2 ^ 63 - 1 := by
          simpa [constructibleB] using hc
        have harr : RespValue.serialize (.integer i) ++ rest
            = 58 :: (intToBytes i ++ 13 :: 10 :: rest) := by
          simp [RespValue.serialize]
        rw [harr, parseStep_colon, parse_integer_wire i rest hbounds.1 hbounds.2]
      | bulkString s =>
        obtain ⟨f1, rfl⟩ : ∃ f1, fuel = f1 + 1 :=
          ⟨fuel - 1, by simp at hfuel; omega⟩
        have hcs : utf8Lossy s = s ∧ s.length ≤ 2 ^ 63 - 1 := by
          simpa [constructibleB] using hc
        have harr : RespValue.serialize (.bulkString s) ++ rest
            = 36 :: (natDigits s.length ++ 13 :: 10 :: (s ++ 13 :: 10 :: rest)) := by
          simp [RespValue.serialize]
        rw [harr, parseStep_dollar, parse_bulk_string_wire s rest hcs.1 hcs.2]
      | null =>
        obtain ⟨f1, rfl⟩ : ∃ f1, fuel = f1 + 1 :=
          ⟨fuel - 1, by simp at hfuel; omega⟩
        rfl
      | array xs =>
        obtain ⟨f1, rfl⟩ : ∃ f1, fuel = f1 + 1 :=
          ⟨fuel - 1, by simp at hfuel; omega⟩
        have hxs : 32 * xs.length ≤ 2 ^ 63 - 1 ∧ constructibleList xs = true := by
          simpa [constructibleB] using hc
        have hcrl : crlfFreeList xs = true := by simpa [crlfFreeB] using hcr
        have hszxs : sizeOf xs < N := by simp at hN; omega
        have hfxs : sizeOf xs ≤ f1 := by simp at hfuel; omega
        have harr : RespValue.serialize (.array xs) ++ rest
            = 42 :: (natDigits xs.length ++ 13 :: 10 :: (serializeList xs ++ rest)) := by
          simp [RespValue.serialize]
        rw [harr, parseStep_star, read_line_append _ _ (noCRLF_natDigits xs.length)]
        dsimp only
        rw [utf8Lossy_natDigits, parse_i64_natDigits xs.length (by omega)]
        dsimp only
        rw [if_neg (show ¬((xs.length : Int) = -1) by omega)]
        rw [usizeOfI64_ofNat xs.length (by omega)]
        rw [if_neg (show ¬(maxIsize < 32 * xs.length) by simp only [maxIsize]; omega)]
        rw [show ((xs.length : Int)).toNat = xs.length from by simp]
        rw [(ih (sizeOf xs) hszxs).2 xs le_rfl hxs.2 hcrl f1 [] rest hfxs]
        simp
    · intro xs hN hc hcr fuel acc rest hfuel
      cases xs with
      | nil =>
        obtain ⟨f1, rfl⟩ : ∃ f1, fuel = f1 + 1 :=
          ⟨fuel - 1, by simp at hfuel; omega⟩
        simp only [serializeList, List.length_nil, List.nil_append, parseStep_items_zero]
        simp
      | cons x xs' =>
        have hszx : sizeOf x < N := by simp at hN; omega
        have hszxs : sizeOf xs' < N := by simp at hN; omega
        obtain ⟨f1, rfl⟩ : ∃ f1, fuel = f1 + 1 :=
          ⟨fuel - 1, by simp at hfuel; omega⟩
        have hfx : sizeOf x ≤ f1 := by simp at hfuel; omega
        have hfxs : sizeOf xs' ≤ f1 := by simp at hfuel; omega
        have hcx : constructibleB x = true ∧ constructibleList xs' = true := by
          simpa [constructibleList] using hc
        have hcrx : crlfFreeB x = true ∧ crlfFreeList xs' = true := by
          simpa [crlfFreeList] using hcr
        have harr : serializeList (x :: xs') ++ rest
            = RespValue.serialize x ++ (serializeList xs' ++ rest) := by
          simp [serializeList]
        rw [harr]
        simp only [List.length_cons]
        rw [parseStep_items_succ]
        rw [(ih (sizeOf x) hszx).1 x le_rfl hcx.1 hcrx.1 f1 (serializeList xs' ++ rest) hfx]
        dsimp only
        rw [(ih (sizeOf xs') hszxs).2 xs' le_rfl hcx.2 hcrx.2 f1 (x :: acc) rest hfxs]
        simp

end Codec

namespace Server

theorem foldl_cons_eq_reverse_append :
    ∀ (vs l : List String), vs.foldl (fun acc v => v :: acc) l = vs.reverse ++ l := by
  intro vs
  induction vs with
  | nil => intro l; simp
  | cons v vs ih =>
    intro l
    simp only [List.foldl_cons, List.reverse_cons, List.append_assoc]
    rw [ih (v :: l)]
    simp

end Server

namespace Codec

/-- Claim C2 (code evaluation): the complete frame `$3\r\nabc\r\n` parses
successfully consuming all bytes, but its 6-byte proper prefix `$3\r\nab`
yields `Err("Failed to read bulk string data")`, which the connection loop
of `src/main.rs` classifies as a protocol error (only `"Incomplete"` and
`"EOF"` break out to read more bytes) — contradicting the claim that every
proper prefix of a valid frame parses as incomplete. -/
theorem truncated_bulk_protocol_error :
    parse_resp 2 [36, 51, 13, 10, 97, 98, 99, 13, 10] = .ok (.bulkString [97, 98, 99]) []
    ∧ [36, 51, 13, 10, 97, 98] = List.take 6 [36, 51, 13, 10, 97, 98, 99, 13, 10]
    ∧ parse_resp 2 [36, 51, 13, 10, 97, 98] = .err ("Failed to read bulk string data")
    ∧ classify (parse_resp 2 [36, 51, 13, 10, 97, 98]) = .protocolError :=
  ⟨rfl, rfl, rfl, rfl⟩

/-- Claim C4 (code evaluation): the 5-byte inputs `$-2\r\n` and `*-2\r\n`
make the parser panic with a capacity overflow (the length `-2` is cast to
`usize` as `2^64 − 2` and `vec![0; len]` / `Vec::with_capacity` panics),
a crash rather than one of the three contracted outcomes — contradicting
the claim that a negative length other than −1 yields a protocol-error. -/
theorem negative_length_capacity_panic :
    parse_resp 2 [36, 45, 50, 13, 10] = .panic ("capacity overflow")
    ∧ classify (parse_resp 2 [36, 45, 50, 13, 10]) = .crash
    ∧ parse_resp 2 [42, 45, 50, 13, 10] = .panic ("capacity overflow")
    ∧ classify (parse_resp 2 [42, 45, 50, 13, 10]) = .crash :=
  ⟨rfl, rfl, rfl, rfl⟩

/-- Claim C9: the two distinct wire inputs `$1\r\n\xFF\r\n` and
`$1\r\n\xFE\r\n` are both accepted as complete bulk-string frames and both
parse to `BulkString U+FFFD` (lossy UTF-8 conversion), and re-serializing
that frame reproduces neither input. -/
theorem lossy_bulk_not_injective :
    parse_resp 1 [36, 49, 13, 10, 255, 13, 10] = .ok (.bulkString [239, 191, 189]) []
    ∧ parse_resp 1 [36, 49, 13, 10, 254, 13, 10] = .ok (.bulkString [239, 191, 189]) []
    ∧ [36, 49, 13, 10, 255, 13, 10] ≠ [36, 49, 13, 10, 254, 13, 10]
    ∧ RespValue.serialize (.bulkString [239, 191, 189]) ≠ [36, 49, 13, 10, 255, 13, 10]
    ∧ RespValue.serialize (.bulkString [239, 191, 189]) ≠ [36, 49, 13, 10, 254, 13, 10] := by
  refine ⟨rfl, rfl, by decide, ?_, ?_⟩
  · rw [show RespValue.serialize (.bulkString [239, 191, 189])
        = [36, 51, 13, 10, 239, 191, 189, 13, 10] from rfl]
    decide
  · rw [show RespValue.serialize (.bulkString [239, 191, 189])
        = [36, 51, 13, 10, 239, 191, 189, 13, 10] from rfl]
    decide

/-- Claim C3 (counterexample): the frame `SimpleString "a\r\nb"` is
constructible in Rust, yet parsing its serialization stops at the embedded
CRLF, returning `SimpleString "a"` with three bytes left unconsumed — the
round trip fails for it as the claim is stated. -/
theorem roundtrip_crlf_counterexample :
    constructibleB (RespValue.simpleString [97, 13, 10, 98]) = true
    ∧ parse_resp 1 (RespValue.serialize (RespValue.simpleString [97, 13, 10, 98]))
        = .ok (.simpleString [97]) [98, 13, 10]
    ∧ parse_resp 1 (RespValue.serialize (RespValue.simpleString [97, 13, 10, 98]))
        ≠ .ok (.simpleString [97, 13, 10, 98]) [] := by
  refine ⟨rfl, rfl, ?_⟩
  rw [show parse_resp 1 (RespValue.serialize (RespValue.simpleString [97, 13, 10, 98]))
      = .ok (.simpleString [97]) [98, 13, 10] from rfl]
  simp

/-- Claim C3 (amended): for every constructible frame whose `SimpleString`
and `SimpleError` payloads contain no CRLF pair, parsing the serialization
(with recursion fuel at least `sizeOf f`; the source recurses without any
depth cap) succeeds, yields the same frame, and consumes all bytes —
including arbitrarily nested arrays. -/
theorem parse_serialize_roundtrip (f : RespValue) (fuel : Nat)
    (hc : constructibleB f = true) (hcr : crlfFreeB f = true)
    (hfuel : sizeOf f ≤ fuel) :
    parse_resp fuel (RespValue.serialize f) = .ok f [] := by
  have h := (parse_serializeAux (sizeOf f)).1 f le_rfl hc hcr fuel [] hfuel
  rw [List.append_nil] at h
  exact h

/-- Witness for the amended C3 round trip at a concrete nested frame. -/
theorem parse_serialize_roundtrip_witness :
    constructibleB (RespValue.array [.bulkString [104, 105], .integer (-42),
      .array [.null, .simpleString [79, 75]], .null]) = true
    ∧ parse_resp 1000 (RespValue.serialize (RespValue.array [.bulkString [104, 105],
        .integer (-42), .array [.null, .simpleString [79, 75]], .null]))
      = .ok (RespValue.array [.bulkString [104, 105], .integer (-42),
          .array [.null, .simpleString [79, 75]], .null]) [] :=
  ⟨by decide,
   parse_serialize_roundtrip
     (RespValue.array [.bulkString [104, 105], .integer (-42),
       .array [.null, .simpleString [79, 75]], .null]) 1000
     (by decide) (by decide) (by decide)⟩

end Codec

namespace Server

/-- Claim C1 (code evaluation): with key `L` holding the three-element list
`[a, b, c]`, the source's `Db::lrange` at `start = end = 1` returns the
empty sequence (its guard tests `start_idx >= end_idx`), while the
spec-mandated semantics (`specLrange`) returns the single-element inclusive
slice `[b]`. -/
theorem lrange_single_element_bug :
    Db.lrange (fun q => if q = "L" then some (.list ["a", "b", "c"], none) else none) "L" 1 1
      = Except.ok []
    ∧ specLrange ["a", "b", "c"] 1 1 = ["b"] :=
  ⟨rfl, rfl⟩

/-- Claim C5 (code evaluation): key `k` holds a `String` entry whose
deadline 5 has passed at `now = 10`, yet `Db::rpush` — which never consults
deadlines — still sees the `String` entry and returns 0 (so the command
layer replies WRONGTYPE) instead of starting a fresh list, leaves the
expired entry in place, and `Db::lrange` likewise returns a type error
instead of the empty sequence. -/
theorem expired_entry_still_typed :
    (5 : Nat) < 10
    ∧ (Db.rpush (fun q => if q = "k" then some (.string "v", some 5) else none) "k" ["a"]).1 = 0
    ∧ (Db.rpush (fun q => if q = "k" then some (.string "v", some 5) else none) "k" ["a"]).2 "k"
        = some (.string "v", some 5)
    ∧ (Command.execute (.rpush "k" ["a"]) 10
        (fun q => if q = "k" then some (.string "v", some 5) else none)).1
        = .simpleError WRONG_TYPE_ERR
    ∧ Db.lrange (fun q => if q = "k" then some (.string "v", some 5) else none) "k" 0 0
        = Except.error () :=
  ⟨by omega, rfl, rfl, rfl, rfl⟩

/-- Claim C6 (counterexample): after `set` at instant 0 with TTL 5 the
deadline is 5, and `Db::get` at `now = 5` — elapsed time exactly equal to
the TTL — still returns the value, because the source expires an entry only
when `Instant::now() > expiry`, strictly; the claim requires `none` at
every time ≥ T. -/
theorem get_at_deadline_counterexample :
    (Db.get (Db.set emptyDb "k" "v" (some (0 + 5))) 5 "k").1 = some (.string "v") :=
  rfl

/-- Claim C6 (amended): after `set(k, v)` with a deadline `t0 + T`,
`Db::get` returns `v` at every time `now ≤ t0 + T` (i.e. elapsed ≤ T), and
at every time `now > t0 + T` returns `none` and physically removes the
entry. -/
theorem get_after_set_ttl (kv : DbState) (k v : String) (t0 T now : Nat) :
    (now ≤ t0 + T → (Db.get (Db.set kv k v (some (t0 + T))) now k).1 = some (.string v))
    ∧ (t0 + T < now →
        (Db.get (Db.set kv k v (some (t0 + T))) now k).1 = none
        ∧ (Db.get (Db.set kv k v (some (t0 + T))) now k).2 k = none) := by
  constructor
  · intro h
    simp [Db.get, Db.set, update, show ¬(t0 + T < now) from by omega]
  · intro h
    constructor
    · simp [Db.get, Db.set, update, show t0 + T < now from h]
    · simp [Db.get, Db.set, update, show t0 + T < now from h]

/-- Witness for the amended C6 at concrete instants: value visible at
elapsed 4 of a TTL of 3 set at instant 2 (deadline 5, now 4), gone at
now 9. -/
theorem get_after_set_ttl_witness :
    (Db.get (Db.set emptyDb "a" "x" (some (2 + 3))) 4 "a").1 = some (.string "x")
    ∧ (Db.get (Db.set emptyDb "a" "x" (some (2 + 3))) 9 "a").1 = none :=
  ⟨(get_after_set_ttl emptyDb "a" "x" 2 3 4).1 (by decide),
   ((get_after_set_ttl emptyDb "a" "x" 2 3 9).2 (by decide)).1⟩

/-- Claim C7: `LPush` (modelled from the spec, `Db::lpush` being absent
from `src/db.rs`) inserts each value at the head in turn — so on a fresh
key the stored list is the reversal of the input and the final input
element sits at index 0, on an existing live list the values are prepended
— and the command replies `Integer new-length`; the spec's concrete
scenario (`RPUSH L a b c`; `LPUSH L z`; `LRANGE L 0 -1` yielding
`[z, a, b, c]`) runs through the source's `rpush`/`lrange`. -/
theorem lpush_prepends (kv : DbState) (k : String) (vs : List String) (now : Nat)
    (hvs : vs ≠ []) :
    (kv k = none →
      (Command.execute (.lpush k vs) now kv).1 = .integer (vs.length : Int)
      ∧ (Command.execute (.lpush k vs) now kv).2 k = some (.list vs.reverse, none))
    ∧ (∀ (l : List String) (d : Option Nat),
        kv k = some (.list l, d) → expiredSpec now d = false →
        (Command.execute (.lpush k vs) now kv).1 = .integer ((vs.length + l.length : Nat) : Int)
        ∧ (Command.execute (.lpush k vs) now kv).2 k = some (.list (vs.reverse ++ l), d))
    ∧ (Command.execute (.rpush "L" ["a", "b", "c"]) 0 emptyDb).1 = .integer 3
    ∧ (Command.execute (.lpush "L" ["z"]) 0
        (Command.execute (.rpush "L" ["a", "b", "c"]) 0 emptyDb).2).1 = .integer 4
    ∧ (Command.execute (.lrange "L" 0 (-1)) 0
        (Command.execute (.lpush "L" ["z"]) 0
          (Command.execute (.rpush "L" ["a", "b", "c"]) 0 emptyDb).2).2).1
      = .array [.bulkString "z", .bulkString "a", .bulkString "b", .bulkString "c"] := by
  have hlen : vs.length ≠ 0 := fun hh => hvs (List.length_eq_zero.mp hh)
  refine ⟨?_, ?_, rfl, rfl, rfl⟩
  · intro hk
    constructor
    · simp [Command.execute, Db.lpush, hk, foldl_cons_eq_reverse_append, handle_push, hlen]
    · simp [Command.execute, Db.lpush, hk, foldl_cons_eq_reverse_append, update]
  · intro l d hk hlive
    constructor
    · simp [Command.execute, Db.lpush, hk, hlive, foldl_cons_eq_reverse_append,
        handle_push, hlen]
    · simp [Command.execute, Db.lpush, hk, hlive, foldl_cons_eq_reverse_append, update]

/-- Witness for C7: `LPUSH q x y` on an absent key replies `:2` and stores
`[y, x]` (the last pushed value at index 0). -/
theorem lpush_prepends_witness :
    (Command.execute (.lpush "q" ["x", "y"]) 0 emptyDb).1 = .integer 2
    ∧ (Command.execute (.lpush "q" ["x", "y"]) 0 emptyDb).2 "q"
      = some (.list ["y", "x"], none) := by
  have h := (lpush_prepends emptyDb "q" ["x", "y"] 0 (by simp)).1 rfl
  exact ⟨h.1, by simpa using h.2⟩

/-- Claim C8: executing `RPush` (source) or `LPush` (spec-modelled) on a
key holding a live `String` entry replies with the WRONGTYPE `SimpleError`
and leaves the whole store — in particular the entry's value and deadline —
unchanged, so a subsequent `Get` at any time not past the deadline still
returns the original string. -/
theorem push_on_string_wrongtype (kv : DbState) (k s : String) (d : Option Nat)
    (vs : List String) (now now' : Nat) (hvs : vs ≠ [])
    (h : kv k = some (.string s, d)) (hlive : expiredSpec now d = false) :
    (Command.execute (.rpush k vs) now kv).1 = .simpleError WRONG_TYPE_ERR
    ∧ (Command.execute (.rpush k vs) now kv).2 = kv
    ∧ (Command.execute (.lpush k vs) now kv).1 = .simpleError WRONG_TYPE_ERR
    ∧ (Command.execute (.lpush k vs) now kv).2 = kv
    ∧ ((∀ e, d = some e → now' ≤ e) →
        (Command.execute (.get k) now'
          (Command.execute (.rpush k vs) now kv).2).1 = .bulkString s) := by
  refine ⟨?_, ?_, ?_, ?_, ?_⟩
  · simp [Command.execute, Db.rpush, h, handle_push]
  · simp [Command.execute, Db.rpush, h]
  · simp [Command.execute, Db.lpush, h, hlive, handle_push]
  · simp [Command.execute, Db.lpush, h, hlive]
  · intro hnx
    have h2 : (Command.execute (.rpush k vs) now kv).2 = kv := by
      simp [Command.execute, Db.rpush, h]
    rw [h2]
    cases d with
    | none => simp [Command.execute, Db.get, h]
    | some e =>
      have he := hnx e rfl
      simp [Command.execute, Db.get, h, show ¬(e < now') from by omega]

/-- Witness for C8: `SET s hello` state, then `RPUSH s x` replies WRONGTYPE
and `GET s` still answers `hello`. -/
theorem push_on_string_wrongtype_witness :
    (Command.execute (.rpush "s" ["x"]) 0
        (fun q => if q = "s" then some (.string "hello", none) else none)).1
      = .simpleError WRONG_TYPE_ERR
    ∧ (Command.execute (.get "s") 0
        (Command.execute (.rpush "s" ["x"]) 0
          (fun q => if q = "s" then some (.string "hello", none) else none)).2).1
      = .bulkString "hello" := by
  have h := push_on_string_wrongtype
      (fun q => if q = "s" then some (.string "hello", none) else none)
      "s" "hello" none ["x"] 0 0 (by simp) rfl rfl
  exact ⟨h.1, h.2.2.2.2 (fun e he => Option.noConfusion he)⟩

/-- Claim C10: `Db::rpush` on a key already holding a `List` entry appends
the values in order, returns the new length, and leaves the entry's
deadline field exactly as it was (the source's `entry().or_insert` path
never reads or writes the deadline of an existing entry); every other key
is untouched. -/
theorem rpush_preserves_deadline (kv : DbState) (k : String) (l vs : List String)
    (d : Option Nat) (h : kv k = some (.list l, d)) :
    (Db.rpush kv k vs).1 = l.length + vs.length
    ∧ (Db.rpush kv k vs).2 k = some (.list (l ++ vs), d)
    ∧ ∀ k', k' ≠ k → (Db.rpush kv k vs).2 k' = kv k' := by
  refine ⟨?_, ?_, ?_⟩
  · simp [Db.rpush, h]
  · simp [Db.rpush, h, update]
  · intro k' hk'
    simp [Db.rpush, h, update, hk']

/-- Witness for C10: pushing `[b, c]` onto `m ↦ ([a], deadline 9)` returns
3 and keeps deadline 9. -/
theorem rpush_preserves_deadline_witness :
    (Db.rpush (fun q => if q = "m" then some (.list ["a"], some 9) else none) "m" ["b", "c"]).1 = 3
    ∧ (Db.rpush (fun q => if q = "m" then some (.list ["a"], some 9) else none) "m" ["b", "c"]).2 "m"
      = some (.list ["a", "b", "c"], some 9) := by
  have h := rpush_preserves_deadline
      (fun q => if q = "m" then some (.list ["a"], some 9) else none)
      "m" ["a"] ["b", "c"] (some 9) rfl
  exact ⟨h.1, by simpa using h.2.1⟩

end Server
